import Mathlib

/-!
Shallow embedding of the forecasting / ILC core of the `energyHome` repository
(`src/addons/energyhome_forecast/app/{forecast.py, ilc.py, main.py, storage.py}`).

Modelling conventions:
* Python floats are embedded as `Option ℚ`: `some q` is a finite float of exact
  value `q`, `none` stands for `NaN` (and, where a database value or dataframe
  cell is concerned, for SQL `NULL` / pandas `NaN`, which pandas conflates).
  Arithmetic on `none` is absorbing, mirroring IEEE NaN propagation; Python's
  2-argument `min`/`max` are modelled with their exact comparison-based
  semantics (`max(a, b)` is `b` if `b > a` else `a`), under which every
  comparison against NaN is false.
* Timestamps are embedded as `ℤ`: minutes since a local-midnight epoch that
  falls on a Monday.  `datetime.fromisoformat` on the strings stored by the
  poller always succeeds; a row whose stored timestamp would fail to parse is
  modelled by `none` in `BinRow.ts`.  Lexicographic order on the stored ISO
  strings coincides with the numeric order of the embedded minutes.
* Python dicts keyed by bin index are embedded as association lists
  `List (ℤ × Option ℚ)`; `.get(i, 0.0)` is `dget`, assignment to an existing
  key is `dset`, and the comprehension over `range(96)` is `mkDict`.
-/

/-- A Python float value: `some q` is finite, `none` is NaN / absent. -/
abbrev V : Type := Option ℚ

/-- Float addition; NaN is absorbing. -/
def Vadd : V → V → V
  | some a, some b => some (a + b)
  | _, _ => none

/-- Float subtraction; NaN is absorbing. -/
def Vsub : V → V → V
  | some a, some b => some (a - b)
  | _, _ => none

/-- Multiplication by a finite scalar; NaN is absorbing (`0 * NaN = NaN`). -/
def Vsmul (q : ℚ) : V → V
  | some a => some (q * a)
  | none => none

/-- Division by 3 (the smoothing kernel weight); NaN is absorbing. -/
def Vdiv3 : V → V
  | some a => some (a / 3)
  | none => none

/-- Python `<` on floats: every comparison involving NaN is false. -/
def vltb : V → V → Bool
  | some a, some b => decide (a < b)
  | _, _ => false

/-- Python `min(a, b)`: returns `b` exactly when `b < a`. -/
def pymin (a b : V) : V := if vltb b a then b else a

/-- Python `max(a, b)`: returns `b` exactly when `b > a`. -/
def pymax (a b : V) : V := if vltb a b then b else a

/-- The five tracked signals of `forecast.build_forecast` / `main.maybe_update_ilc`. -/
inductive Signal : Type
  | total_w
  | l1_w
  | l2_w
  | l3_w
  | inverter_w
deriving DecidableEq

/-- A row of the `binned` table as consumed through a dataframe: local bin-start
timestamp (minutes) and a value-or-absent per tracked signal. -/
structure Row : Type where
  ts : ℤ
  vals : Signal → V

/-- A row as consumed by `ilc.update_ilc_curve`: the timestamp is the result of
`datetime.fromisoformat` (`none` models a `ValueError`). -/
structure BinRow : Type where
  ts : Option ℤ
  vals : Signal → V

/-- A Python dict keyed by bin index, as an association list. -/
abbrev Dct : Type := List (ℤ × V)

/-- `d.get(i, 0.0)`: the first binding of key `i`, defaulting to the float `0.0`. -/
def dget (d : Dct) (i : ℤ) : V :=
  match d with
  | [] => some 0
  | p :: rest => if i = p.1 then p.2 else dget rest i

/-- `d[i] = v` on a dict whose keys already include `i` (always the case here:
curves and baselines are normalised to keys `0..95` and the assigned key is a
bin index): replace the value at key `i`. -/
def dset (d : Dct) (i : ℤ) (v : V) : Dct :=
  d.map (fun p => if p.1 = i then (p.1, v) else p)

/-- `{i: f(i) for i in range(96)}`. -/
def mkDict (f : ℤ → V) : Dct :=
  (List.range 96).map (fun j : ℕ => ((j : ℤ), f (j : ℤ)))

/-- Local wall-clock hour of an embedded timestamp. -/
def pyHour (t : ℤ) : ℤ := (t.emod 1440) / 60

/-- Local wall-clock minute of an embedded timestamp. -/
def pyMinute (t : ℤ) : ℤ := (t.emod 1440) % 60

/-- `forecast._bin_index` / the inline computation in `ilc.update_ilc_curve`:
`int(hour * 4 + minute / 15)`. -/
def bin_index (t : ℤ) : ℤ := pyHour t * 4 + pyMinute t / 15

/-- `.date()` of an embedded timestamp, as a day number. -/
def pyDate (t : ℤ) : ℤ := t / 1440

/-- `.weekday()` / pandas `dayofweek` (Monday = 0): the epoch is a Monday. -/
def pyDow (t : ℤ) : ℤ := (pyDate t) % 7

/-- Zero padding used by `np.convolve(..., mode="same")` beyond the array ends. -/
def padded (d : Dct) (i : ℤ) : V :=
  if 0 ≤ i ∧ i < 96 then dget d i else some 0

/-- `forecast.smooth_baseline`: 3-tap uniform moving average over the 96 slots,
`np.convolve(values, ones(3)/3, mode="same")`, i.e. for each slot `i` the sum of
the in-range neighbours `i-1, i, i+1` (missing neighbours contribute the float
`0.0`) divided by 3.  NaN entries propagate exactly as in numpy's
multiply-accumulate. -/
def smooth_baseline (d : Dct) : Dct :=
  mkDict (fun i => Vdiv3 (Vadd (Vadd (padded d (i - 1)) (padded d i)) (padded d (i + 1))))

/-- `ilc.smooth_curve`: textually the same computation as `forecast.smooth_baseline`. -/
def smooth_curve (d : Dct) : Dct := smooth_baseline d

-- Storage layer (`storage.py`): the `binned` table is modelled as a list of
-- rows; `ORDER BY ts_local_bin_start ASC` is a stable sort on the embedded
-- timestamps (ISO strings compare lexicographically in timestamp order).

/-- Stable insertion into a ts-sorted list. -/
def insertRow (x : Row) : List Row → List Row
  | [] => [x]
  | y :: ys => if x.ts ≤ y.ts then x :: y :: ys else y :: insertRow x ys

/-- Stable sort by bin-start timestamp, ascending. -/
def sortRows (l : List Row) : List Row := l.foldr insertRow []

/-- `storage.fetch_binned_since`: rows with `ts_local_bin_start >= start`,
ascending. -/
def fetch_binned_since (db : List Row) (ts_local_start : ℤ) : List Row :=
  sortRows (db.filter (fun r => ts_local_start ≤ r.ts))

/-- `storage.fetch_binned_between`: rows with
`start <= ts_local_bin_start < end`, ascending. -/
def fetch_binned_between (db : List Row) (start_local end_local : ℤ) : List Row :=
  sortRows (db.filter (fun r => start_local ≤ r.ts ∧ r.ts < end_local))

-- Baseline estimator (`forecast.py`).

/-- Stable insertion into a sorted integer list. -/
def insertSorted (x : ℤ) : List ℤ → List ℤ
  | [] => [x]
  | y :: ys => if x ≤ y then x :: y :: ys else y :: insertSorted x ys

/-- `sorted(...)` on a list of dates. -/
def sortInts (l : List ℤ) : List ℤ := l.foldr insertSorted []

/-- `df["date"].unique()`: distinct dates in order of first appearance. -/
def dateList (rows : List Row) : List ℤ :=
  (rows.map (fun r => pyDate r.ts)).eraseDups

/-- Python `l[-days:]` (for `days = 0` this is the whole list). -/
def takeLast (l : List ℤ) (days : ℕ) : List ℤ :=
  if days = 0 then l else l.drop (l.length - days)

/-- `sorted(df["date"].unique())[-days:]`. -/
def recentDates (rows : List Row) (days : ℕ) : List ℤ :=
  takeLast (sortInts (dateList rows)) days

/-- `df = df[df["date"].isin(recent_dates)]`. -/
def windowFiltered (rows : List Row) (days : ℕ) : List Row :=
  rows.filter (fun r => (recentDates rows days).contains (pyDate r.ts))

/-- `df.groupby("bin")[value_col].mean().to_dict()`, read back with
`.get(i, 0.0)`: a slot with no rows defaults to the float `0.0`; a slot whose
rows all carry an absent value yields pandas' mean of an all-NaN group, NaN;
otherwise the mean of the present values. -/
def slotMean (filtered : List Row) (sig : Signal) (i : ℤ) : V :=
  let grp := filtered.filter (fun r => bin_index r.ts = i)
  if grp.isEmpty then some 0
  else
    let present := grp.filterMap (fun r => r.vals sig)
    if present.isEmpty then none
    else some (present.sum / (present.length : ℚ))

/-- `forecast.compute_baseline` (caller default `days = 14`). -/
def compute_baseline (df : List Row) (sig : Signal) (days : ℕ) : Dct :=
  if df.isEmpty then mkDict (fun _ => some 0)
  else mkDict (fun i => slotMean (windowFiltered df days) sig i)

/-- `forecast.compute_baseline_weekday` (caller default `days = 28`). -/
def compute_baseline_weekday (df : List Row) (sig : Signal) (dow : ℤ) (days : ℕ) : Dct :=
  if df.isEmpty then mkDict (fun _ => some 0)
  else
    let df_dow := (windowFiltered df days).filter (fun r => pyDow r.ts = dow)
    if df_dow.isEmpty then mkDict (fun _ => some 0)
    else mkDict (fun i => slotMean df_dow sig i)

-- ILC curve updater (`ilc.py`).

/-- One iteration of the update loop of `ilc.update_ilc_curve`: a `(ts, actual)`
pair whose timestamp failed to parse is skipped; otherwise
`error = actual - baseline[slot]` and
`curve[slot] = max(min((1-alpha)*curve[slot] + alpha*error, cmax), -cmax)`. -/
def ilcStep (baseline : Dct) (alpha cmax : ℚ) (c : Dct) (p : Option ℤ × ℚ) : Dct :=
  match p.1 with
  | none => c
  | some t =>
      let b := bin_index t
      let error := Vsub (some p.2) (dget baseline b)
      let updated := Vadd (Vsmul (1 - alpha) (dget c b)) (Vsmul alpha error)
      dset c b (pymax (pymin updated (some cmax)) (some (-cmax)))

/-- The body of `ilc.update_ilc_curve` after the rows have been fetched:
collect `(ts, actual)` for rows whose value is not `None`, normalise the
existing curve to keys `0..95`, run the update loop, and re-smooth. -/
def update_ilc_rows (rows : List BinRow) (sig : Signal) (baseline_by_bin existing_curve : Dct)
    (alpha cmax : ℚ) : Dct :=
  let values : List (Option ℤ × ℚ) :=
    rows.filterMap (fun r => Option.map (fun v => (r.ts, v)) (r.vals sig))
  let curve0 : Dct := mkDict (fun i => dget existing_curve i)
  smooth_curve (values.foldl (ilcStep baseline_by_bin alpha cmax) curve0)

/-- `ilc.update_ilc_curve`: fetches yesterday's window from the store and runs
the update body; every stored timestamp parses, so the fetched rows enter the
body with a present timestamp. -/
def update_ilc_curve (db : List Row) (sig : Signal) (baseline_by_bin existing_curve : Dct)
    (yesterday_start_local today_start_local : ℤ) (alpha cmax : ℚ) : Dct :=
  update_ilc_rows
    ((fetch_binned_between db yesterday_start_local today_start_local).map
      (fun r => BinRow.mk (some r.ts) r.vals))
    sig baseline_by_bin existing_curve alpha cmax

/-- `ilc.should_update_ilc` (an absent or empty marker is `none`). -/
def should_update_ilc (last_update : Option ℤ) (today : ℤ) : Bool :=
  match last_update with
  | none => true
  | some d => decide (d ≠ today)

-- Forecast assembler (`forecast.build_forecast`).

/-- `df["ts_local"].max()` on a nonempty history. -/
def maxTs (rows : List Row) : ℤ :=
  match rows with
  | [] => 0
  | r :: rest => rest.foldl (fun m x => max m x.ts) r.ts

/-- The fixed signal order of the assembler's loop. -/
def signalsList : List Signal :=
  [Signal.total_w, Signal.l1_w, Signal.l2_w, Signal.l3_w, Signal.inverter_w]

/-- `forecast.build_forecast`.  `datetime.now()` (used only on an empty
history) is the explicit input `now`.  Timestamps are returned as embedded
minutes; serialisation to ISO strings is order- and value-faithful. -/
def build_forecast (df : List Row) (now : ℤ) (horizon_hours : ℕ)
    (ilc_curve : Signal → Dct) (learning_mode : String) :
    List ℤ × List (Signal × List V) :=
  let latest_local : ℤ := if df.isEmpty then now else maxTs df
  let start := latest_local + 15
  let steps := horizon_hours * 4
  let timestamps := (List.range steps).map (fun i : ℕ => start + 15 * (i : ℤ))
  let signalValues : Signal → List V := fun signal =>
    if learning_mode = "weekday_profile" then
      let weekday_baselines : ℤ → Dct :=
        fun dow => smooth_baseline (compute_baseline_weekday df signal dow 28)
      timestamps.map (fun ts =>
        pymax (some 0) (dget (weekday_baselines (pyDow ts)) (bin_index ts)))
    else if learning_mode = "off" then
      let baseline := smooth_baseline (compute_baseline df signal 14)
      timestamps.map (fun ts => pymax (some 0) (dget baseline (bin_index ts)))
    else
      let baseline := smooth_baseline (compute_baseline df signal 14)
      let curve := ilc_curve signal
      timestamps.map (fun ts =>
        pymax (some 0) (Vadd (dget baseline (bin_index ts)) (dget curve (bin_index ts))))
  (timestamps, signalsList.map (fun s => (s, signalValues s)))

-- Daily ILC cycle (`main.maybe_update_ilc`).

/-- The persistent state the cycle reads and writes: the `binned` table, the
per-signal persisted curves, and the `last_ilc_update_local` marker. -/
structure SysState : Type where
  binned : List Row
  curves : Signal → Dct
  last_ilc_update : Option ℤ

/-- The per-signal clamp constants of `main.maybe_update_ilc`. -/
def cmaxOf : Signal → ℚ
  | Signal.total_w => 4000
  | Signal.l1_w => 2000
  | Signal.l2_w => 2000
  | Signal.l3_w => 2000
  | Signal.inverter_w => 4000

/-- `main.maybe_update_ilc` as a state transition for a given local day
`today`: guard on the marker, fetch everything since yesterday 00:00, skip
only if that (yesterday AND today) is empty, otherwise update all five curves
(baseline from the fetched rows dated before today, `alpha = 0.2`) and set the
marker to today. -/
def maybe_update_ilc (st : SysState) (today : ℤ) : SysState :=
  if should_update_ilc st.last_ilc_update today then
    let start_local := (today - 1) * 1440
    let end_local := today * 1440
    let rows := fetch_binned_since st.binned start_local
    if rows.isEmpty then st
    else
      let baseline_df := rows.filter (fun r => pyDate r.ts < today)
      { binned := st.binned
        curves := fun s =>
          let baseline := smooth_baseline (compute_baseline baseline_df s 14)
          update_ilc_curve st.binned s baseline (st.curves s) start_local end_local
            (1 / 5) (cmaxOf s)
        last_ilc_update := some today }
  else st

-- Claim-side definitions, stated from the specification's words, used in the
-- refinement statement for the ILC update.

/-- Claim-side list of records the spec's ILC algorithm processes: for each
fetched row of the window `[yesterday_start, today_start)` with a non-absent
value for the signal, its slot index and actual value, in fetched order. -/
def specRecords (db : List Row) (sig : Signal) (ystart tstart : ℤ) : List (ℤ × ℚ) :=
  (fetch_binned_between db ystart tstart).filterMap
    (fun r => Option.map (fun v => (bin_index r.ts, v)) (r.vals sig))

/-- Claim-side per-record update: `error = actual - baseline[slot]` and
`curve[slot] = clamp((1 - alpha) * curve[slot] + alpha * error, -cmax, +cmax)`. -/
def specStep (baseline : Dct) (alpha cmax : ℚ) (c : Dct) (p : ℤ × ℚ) : Dct :=
  dset c p.1
    (pymax (pymin (Vadd (Vsmul (1 - alpha) (dget c p.1))
      (Vsmul alpha (Vsub (some p.2) (dget baseline p.1)))) (some cmax)) (some (-cmax)))

-- Value predicates used to state the bound / totality claims.

/-- The float is finite and lies in `[-cmax, cmax]`. -/
def boundedV (cmax : ℚ) : V → Prop
  | none => False
  | some q => -cmax ≤ q ∧ q ≤ cmax

instance instDecBoundedV (cmax : ℚ) : (v : V) → Decidable (boundedV cmax v)
  | none => isFalse (fun h => h)
  | some q => inferInstanceAs (Decidable (-cmax ≤ q ∧ q ≤ cmax))

/-- Every entry of the dict is finite and lies in `[-cmax, cmax]`. -/
def boundedD (c : Dct) (cmax : ℚ) : Prop := ∀ p ∈ c, boundedV cmax p.2

/-- Every entry of the dict is finite (not NaN). -/
def finiteD (c : Dct) : Prop := ∀ p ∈ c, p.2 ≠ none

instance instDecBoundedD (c : Dct) (cmax : ℚ) : Decidable (boundedD c cmax) :=
  inferInstanceAs (Decidable (∀ p ∈ c, boundedV cmax p.2))

instance instDecFiniteD (c : Dct) : Decidable (finiteD c) :=
  inferInstanceAs (Decidable (∀ p ∈ c, p.2 ≠ none))

/-- The arguments of one `update_ilc_curve` call in a sequence of updates
against a fixed clamp `cmax`. -/
structure IlcCall : Type where
  db : List Row
  sig : Signal
  baseline : Dct
  ystart : ℤ
  tstart : ℤ
  alpha : ℚ

/-- A finite sequence of `update_ilc_curve` calls applied to a starting curve,
each call feeding the curve it returns to the next. -/
def applyCalls (cmax : ℚ) (start : Dct) (calls : List IlcCall) : Dct :=
  calls.foldl
    (fun curve c => update_ilc_curve c.db c.sig c.baseline curve c.ystart c.tstart c.alpha cmax)
    start

-- Basic dictionary lemmas ----------------------------------------------------

theorem dget_map_keyed (L : List ℕ) (f : ℤ → V) (i : ℤ) :
    dget (L.map (fun j : ℕ => ((j : ℤ), f (j : ℤ)))) i
      = if ∃ j ∈ L, (j : ℤ) = i then f i else some 0 := by
  induction L with
  | nil => simp [dget]
  | cons a L ih =>
      rw [List.map_cons]
      show (if i = ((a : ℤ), f (a : ℤ)).1 then ((a : ℤ), f (a : ℤ)).2
            else dget (L.map (fun j : ℕ => ((j : ℤ), f (j : ℤ)))) i) = _
      by_cases hia : i = (a : ℤ)
      · rw [if_pos hia]
        have hE : ∃ j ∈ a :: L, (j : ℤ) = i := ⟨a, List.mem_cons_self a L, hia.symm⟩
        rw [if_pos hE, hia]
      · rw [if_neg hia, ih]
        by_cases hE : ∃ j ∈ L, (j : ℤ) = i
        · obtain ⟨j, hj, hji⟩ := hE
          rw [if_pos ⟨j, hj, hji⟩, if_pos ⟨j, List.mem_cons_of_mem a hj, hji⟩]
        · rw [if_neg hE, if_neg]
          rintro ⟨j, hj, hji⟩
          rcases List.mem_cons.mp hj with rfl | hj2
          · exact hia hji.symm
          · exact hE ⟨j, hj2, hji⟩

theorem exists_range_cast (i : ℤ) :
    (∃ j ∈ List.range 96, (j : ℤ) = i) ↔ (0 ≤ i ∧ i < 96) := by
  constructor
  · rintro ⟨j, hj, rfl⟩
    simp only [List.mem_range] at hj
    exact ⟨Int.ofNat_nonneg j, by exact_mod_cast hj⟩
  · rintro ⟨h0, h96⟩
    refine ⟨i.toNat, ?_, ?_⟩
    · simp only [List.mem_range]
      omega
    · omega

theorem dget_mkDict (f : ℤ → V) (i : ℤ) (h0 : 0 ≤ i) (h96 : i < 96) :
    dget (mkDict f) i = f i := by
  unfold mkDict
  rw [dget_map_keyed]
  rw [if_pos ((exists_range_cast i).mpr ⟨h0, h96⟩)]

theorem dget_mkDict_out (f : ℤ → V) (i : ℤ) (h : ¬ (0 ≤ i ∧ i < 96)) :
    dget (mkDict f) i = some 0 := by
  unfold mkDict
  rw [dget_map_keyed]
  rw [if_neg (fun hc => h ((exists_range_cast i).mp hc))]

theorem dset_mkDict (f : ℤ → V) (i : ℤ) (v : V) :
    dset (mkDict f) i v = mkDict (fun j => if j = i then v else f j) := by
  unfold dset mkDict
  rw [List.map_map]
  refine List.map_congr_left ?_
  intro j _
  by_cases hj : (j : ℤ) = i
  · simp [Function.comp, hj]
  · simp [Function.comp, hj]

theorem keys_mkDict (f : ℤ → V) :
    (mkDict f).map Prod.fst = (List.range 96).map (fun j => (j : ℤ)) := by
  unfold mkDict
  rw [List.map_map]
  rfl

theorem bin_index_nonneg (t : ℤ) : 0 ≤ bin_index t := by
  unfold bin_index pyHour pyMinute
  have h0 : 0 ≤ t.emod 1440 := Int.emod_nonneg t (by norm_num)
  have h1 : t.emod 1440 < 1440 := Int.emod_lt_of_pos t (by norm_num)
  omega

theorem bin_index_lt (t : ℤ) : bin_index t < 96 := by
  unfold bin_index pyHour pyMinute
  have h0 : 0 ≤ t.emod 1440 := Int.emod_nonneg t (by norm_num)
  have h1 : t.emod 1440 < 1440 := Int.emod_lt_of_pos t (by norm_num)
  omega


-- Helper lemmas on values and predicates --------------------------------------

theorem pymax_zero_nonneg (x : V) : ∃ q : ℚ, pymax (some 0) x = some q ∧ 0 ≤ q := by
  cases x with
  | none => exact ⟨0, rfl, le_refl 0⟩
  | some a =>
      by_cases h : (0 : ℚ) < a
      · refine ⟨a, ?_, le_of_lt h⟩
        simp [pymax, vltb, h]
      · refine ⟨0, ?_, le_refl 0⟩
        simp [pymax, vltb, h]

theorem boundedV_elim {cmax : ℚ} {v : V} (h : boundedV cmax v) :
    ∃ q : ℚ, v = some q ∧ -cmax ≤ q ∧ q ≤ cmax := by
  cases v with
  | none => exact absurd h (fun hh => hh)
  | some q => exact ⟨q, rfl, h.1, h.2⟩

theorem dget_of_finiteD : ∀ (c : Dct), finiteD c → ∀ i : ℤ, ∃ x : ℚ, dget c i = some x := by
  intro c
  induction c with
  | nil => intro _ i; exact ⟨0, rfl⟩
  | cons p rest ih =>
      intro h i
      simp only [dget]
      by_cases hip : i = p.1
      · rw [if_pos hip]
        cases hq : p.2 with
        | none => exact absurd hq (h p (List.mem_cons_self p rest))
        | some q => exact ⟨q, rfl⟩
      · rw [if_neg hip]
        exact ih (fun q hq => h q (List.mem_cons_of_mem p hq)) i

theorem dget_of_boundedD (cmax : ℚ) (hc : 0 ≤ cmax) :
    ∀ (c : Dct), boundedD c cmax → ∀ i : ℤ, boundedV cmax (dget c i) := by
  intro c
  induction c with
  | nil => intro _ i; exact ⟨by linarith, hc⟩
  | cons p rest ih =>
      intro h i
      simp only [dget]
      by_cases hip : i = p.1
      · rw [if_pos hip]; exact h p (List.mem_cons_self p rest)
      · rw [if_neg hip]
        exact ih (fun q hq => h q (List.mem_cons_of_mem p hq)) i

theorem clamp_boundedV (u cmax : ℚ) (hc : 0 ≤ cmax) :
    boundedV cmax (pymax (pymin (some u) (some cmax)) (some (-cmax))) := by
  by_cases h1 : cmax < u
  · have e1 : pymin (some u) (some cmax) = some cmax := by simp [pymin, vltb, h1]
    have hn : ¬ (cmax < -cmax) := by linarith
    have e2 : pymax (some cmax) (some (-cmax)) = some cmax := by simp [pymax, vltb, hn]
    rw [e1, e2]
    exact ⟨by linarith, le_refl cmax⟩
  · have e1 : pymin (some u) (some cmax) = some u := by simp [pymin, vltb, h1]
    rw [e1]
    by_cases h2 : u < -cmax
    · have e2 : pymax (some u) (some (-cmax)) = some (-cmax) := by simp [pymax, vltb, h2]
      rw [e2]
      exact ⟨le_refl _, by linarith⟩
    · have e2 : pymax (some u) (some (-cmax)) = some u := by simp [pymax, vltb, h2]
      rw [e2]
      exact ⟨by linarith, by linarith⟩

theorem clamp_id_of_bounded {q cmax : ℚ} (h1 : -cmax ≤ q) (h2 : q ≤ cmax) :
    pymax (pymin (some q) (some cmax)) (some (-cmax)) = some q := by
  have hn : ¬ (cmax < q) := not_lt.mpr h2
  have e1 : pymin (some q) (some cmax) = some q := by simp [pymin, vltb, hn]
  rw [e1]
  have hn2 : ¬ (q < -cmax) := not_lt.mpr h1
  simp [pymax, vltb, hn2]

theorem boundedD_mkDict {cmax : ℚ} (g : ℤ → V) (h : ∀ j : ℤ, boundedV cmax (g j)) :
    boundedD (mkDict g) cmax := by
  intro p hp
  obtain ⟨j, hj, rfl⟩ := List.mem_map.mp hp
  exact h (j : ℤ)

theorem boundedD_dset {c : Dct} {cmax : ℚ} (h : boundedD c cmax) (i : ℤ) {v : V}
    (hv : boundedV cmax v) : boundedD (dset c i v) cmax := by
  intro p hp
  obtain ⟨p0, hp0, rfl⟩ := List.mem_map.mp hp
  by_cases hpi : p0.1 = i
  · rw [if_pos hpi]
    exact hv
  · rw [if_neg hpi]
    exact h p0 hp0

theorem boundedD_smooth {c : Dct} {cmax : ℚ} (h : boundedD c cmax) (hc : 0 ≤ cmax) :
    boundedD (smooth_baseline c) cmax := by
  unfold smooth_baseline
  apply boundedD_mkDict
  intro j
  have hp : ∀ k : ℤ, boundedV cmax (padded c k) := by
    intro k
    unfold padded
    by_cases hk : 0 ≤ k ∧ k < 96
    · rw [if_pos hk]
      exact dget_of_boundedD cmax hc c h k
    · rw [if_neg hk]
      exact ⟨by linarith, hc⟩
  obtain ⟨a, ea, ha1, ha2⟩ := boundedV_elim (hp (j - 1))
  obtain ⟨b, eb, hb1, hb2⟩ := boundedV_elim (hp j)
  obtain ⟨e, ee, he1, he2⟩ := boundedV_elim (hp (j + 1))
  rw [ea, eb, ee]
  show boundedV cmax (Vdiv3 (Vadd (Vadd (some a) (some b)) (some e)))
  simp only [Vadd, Vdiv3]
  exact ⟨by linarith, by linarith⟩

theorem boundedD_ilcStep {baseline c : Dct} {alpha cmax : ℚ} (hc : 0 ≤ cmax)
    (hbase : finiteD baseline) (h : boundedD c cmax) (p : Option ℤ × ℚ) :
    boundedD (ilcStep baseline alpha cmax c p) cmax := by
  obtain ⟨ts, a⟩ := p
  cases ts with
  | none => exact h
  | some t =>
      show boundedD (dset c (bin_index t)
        (pymax (pymin (Vadd (Vsmul (1 - alpha) (dget c (bin_index t)))
          (Vsmul alpha (Vsub (some a) (dget baseline (bin_index t))))) (some cmax))
          (some (-cmax)))) cmax
      obtain ⟨q, hq, hq1, hq2⟩ := boundedV_elim (dget_of_boundedD cmax hc c h (bin_index t))
      obtain ⟨x, hx⟩ := dget_of_finiteD baseline hbase (bin_index t)
      apply boundedD_dset h
      rw [hq, hx]
      show boundedV cmax (pymax (pymin (some ((1 - alpha) * q + alpha * (a - x)))
        (some cmax)) (some (-cmax)))
      exact clamp_boundedV _ cmax hc

theorem boundedD_foldSteps {baseline : Dct} {alpha cmax : ℚ} (hc : 0 ≤ cmax)
    (hbase : finiteD baseline) :
    ∀ (values : List (Option ℤ × ℚ)) (c : Dct), boundedD c cmax →
      boundedD (values.foldl (ilcStep baseline alpha cmax) c) cmax := by
  intro values
  induction values with
  | nil => intro c h; exact h
  | cons p rest ih =>
      intro c h
      rw [List.foldl_cons]
      exact ih _ (boundedD_ilcStep hc hbase h p)

theorem boundedD_update_ilc_curve {db : List Row} {sig : Signal}
    {baseline existing : Dct} {ystart tstart : ℤ} {alpha cmax : ℚ}
    (hc : 0 ≤ cmax) (hbase : finiteD baseline) (hex : boundedD existing cmax) :
    boundedD (update_ilc_curve db sig baseline existing ystart tstart alpha cmax) cmax := by
  simp only [update_ilc_curve, update_ilc_rows, smooth_curve]
  apply boundedD_smooth ?_ hc
  apply boundedD_foldSteps hc hbase
  apply boundedD_mkDict
  intro j
  exact dget_of_boundedD cmax hc existing hex j

-- Equality of the two-phase update loop with the claim-side single pass.

theorem ilc_fold_eq (sig : Signal) (baseline : Dct) (alpha cmax : ℚ) :
    ∀ (brs : List Row) (c : Dct),
      (((brs.map (fun x => BinRow.mk (some x.ts) x.vals)).filterMap
          (fun x => Option.map (fun v => (x.ts, v)) (x.vals sig))).foldl
        (ilcStep baseline alpha cmax) c)
      = ((brs.filterMap (fun x => Option.map (fun v => (bin_index x.ts, v)) (x.vals sig))).foldl
          (specStep baseline alpha cmax) c) := by
  intro brs
  induction brs with
  | nil => intro c; rfl
  | cons r rest ih =>
      intro c
      rw [List.map_cons]
      cases hv : r.vals sig with
      | none =>
          simp only [List.filterMap_cons, hv, Option.map_none']
          exact ih c
      | some v =>
          simp only [List.filterMap_cons, hv, Option.map_some']
          rw [List.foldl_cons, List.foldl_cons]
          exact ih (ilcStep baseline alpha cmax c (some r.ts, v))

theorem dset_dget_self (g : ℤ → V) (b : ℤ) (h0 : 0 ≤ b) (h96 : b < 96) :
    dset (mkDict g) b (dget (mkDict g) b) = mkDict g := by
  rw [dget_mkDict g b h0 h96, dset_mkDict]
  unfold mkDict
  apply List.map_congr_left
  intro j _
  by_cases hj : (j : ℤ) = b
  · simp [hj]
  · simp [hj]

theorem ilcStep_alpha_zero {baseline : Dct} {cmax : ℚ} (hc : 0 ≤ cmax)
    (hbase : finiteD baseline) (g : ℤ → V)
    (hg : boundedD (mkDict g) cmax) (p : Option ℤ × ℚ) :
    ilcStep baseline 0 cmax (mkDict g) p = mkDict g := by
  obtain ⟨ts, a⟩ := p
  cases ts with
  | none => rfl
  | some t =>
      have h0 := bin_index_nonneg t
      have h96 := bin_index_lt t
      obtain ⟨q, hq, hq1, hq2⟩ :=
        boundedV_elim (dget_of_boundedD cmax hc _ hg (bin_index t))
      obtain ⟨x, hx⟩ := dget_of_finiteD baseline hbase (bin_index t)
      show dset (mkDict g) (bin_index t)
          (pymax (pymin (Vadd (Vsmul (1 - 0) (dget (mkDict g) (bin_index t)))
            (Vsmul 0 (Vsub (some a) (dget baseline (bin_index t))))) (some cmax))
            (some (-cmax)))
        = mkDict g
      rw [hq, hx]
      have e : Vadd (Vsmul (1 - 0) (some q)) (Vsmul 0 (Vsub (some a) (some x))) = some q := by
        simp only [Vsub, Vsmul, Vadd]
        norm_num
      rw [e, clamp_id_of_bounded hq1 hq2, ← hq]
      exact dset_dget_self g (bin_index t) h0 h96

theorem fold_alpha_zero {baseline : Dct} {cmax : ℚ} (hc : 0 ≤ cmax)
    (hbase : finiteD baseline) (g : ℤ → V) (hg : boundedD (mkDict g) cmax) :
    ∀ values : List (Option ℤ × ℚ),
      values.foldl (ilcStep baseline 0 cmax) (mkDict g) = mkDict g := by
  intro values
  induction values with
  | nil => rfl
  | cons p rest ih =>
      rw [List.foldl_cons, ilcStep_alpha_zero hc hbase g hg p]
      exact ih

-- Lemmas about the forecast timestamp list and the history maximum.

theorem foldl_max_init_le : ∀ (l : List Row) (a : ℤ),
    a ≤ l.foldl (fun m x => max m x.ts) a := by
  intro l
  induction l with
  | nil => intro a; exact le_refl a
  | cons y l ih =>
      intro a
      rw [List.foldl_cons]
      exact le_trans (le_max_left a y.ts) (ih (max a y.ts))

theorem mem_le_foldl_max : ∀ (l : List Row) (a : ℤ) (x : Row), x ∈ l →
    x.ts ≤ l.foldl (fun m x => max m x.ts) a := by
  intro l
  induction l with
  | nil => intro a x hx; exact absurd hx (List.not_mem_nil x)
  | cons y l ih =>
      intro a x hx
      rw [List.foldl_cons]
      rcases List.mem_cons.mp hx with rfl | hx2
      · exact le_trans (le_max_right a x.ts) (foldl_max_init_le l (max a x.ts))
      · exact ih (max a y.ts) x hx2

theorem foldl_max_mem : ∀ (l : List Row) (a : ℤ),
    l.foldl (fun m x => max m x.ts) a = a
      ∨ ∃ x ∈ l, l.foldl (fun m x => max m x.ts) a = x.ts := by
  intro l
  induction l with
  | nil => intro a; exact Or.inl rfl
  | cons y l ih =>
      intro a
      rw [List.foldl_cons]
      rcases ih (max a y.ts) with h | ⟨x, hx, heq⟩
      · rcases max_choice a y.ts with hm | hm
        · exact Or.inl (h.trans hm)
        · exact Or.inr ⟨y, List.mem_cons_self y l, h.trans hm⟩
      · exact Or.inr ⟨x, List.mem_cons_of_mem y hx, heq⟩

theorem le_maxTs (df : List Row) : ∀ r ∈ df, r.ts ≤ maxTs df := by
  intro r hr
  cases df with
  | nil => exact absurd hr (List.not_mem_nil r)
  | cons y rest =>
      unfold maxTs
      rcases List.mem_cons.mp hr with rfl | hr2
      · exact foldl_max_init_le rest r.ts
      · exact mem_le_foldl_max rest y.ts r hr2

theorem maxTs_mem (df : List Row) (h : df ≠ []) : ∃ r ∈ df, maxTs df = r.ts := by
  cases df with
  | nil => exact absurd rfl h
  | cons y rest =>
      unfold maxTs
      rcases foldl_max_mem rest y.ts with he | ⟨x, hx, he⟩
      · exact ⟨y, List.mem_cons_self y rest, he⟩
      · exact ⟨x, List.mem_cons_of_mem y hx, he⟩

theorem getD_range_map (n : ℕ) (g : ℕ → ℤ) (i : ℕ) (d : ℤ) :
    ((List.range n).map g).getD i d = if i < n then g i else d := by
  rw [List.getD_eq_getElem?_getD, List.getElem?_map]
  by_cases h : i < n
  · rw [List.getElem?_range h, if_pos h]
    rfl
  · have hlen : (List.range n).length ≤ i := by
      rw [List.length_range]
      exact not_lt.mp h
    rw [List.getElem?_eq_none hlen, if_neg h]
    rfl

theorem padded_of_in (d : Dct) (k : ℤ) (h : 0 ≤ k ∧ k < 96) : padded d k = dget d k := by
  unfold padded
  rw [if_pos h]

theorem padded_of_out (d : Dct) (k : ℤ) (h : ¬ (0 ≤ k ∧ k < 96)) : padded d k = some 0 := by
  unfold padded
  rw [if_neg h]

theorem dget_smooth_formula (d : Dct) (i : ℤ) (h0 : 0 ≤ i) (h96 : i < 96) :
    dget (smooth_baseline d) i
      = Vdiv3 (Vadd (Vadd (padded d (i - 1)) (padded d i)) (padded d (i + 1))) := by
  unfold smooth_baseline
  rw [dget_mkDict _ i h0 h96]

-- Claim theorems ---------------------------------------------------------------

/-- Claim C1: for every historical record in the window
`[yesterday_start, today_start)` with a non-absent value for the given signal,
`update_ilc_curve` computes `error = actual_value - baseline[slot]` and replaces
`curve[slot]` by `clamp((1 - alpha) * curve[slot] + alpha * error, -cmax, +cmax)`,
processing records in fetched order (so multiple records in the same slot apply
the exponential update sequentially within the same call), and the returned
curve is the updated curve passed through the 3-tap smoothing filter. -/
theorem C1_update_ilc_curve_algorithm (db : List Row) (sig : Signal)
    (baseline_by_bin existing_curve : Dct) (ystart tstart : ℤ) (alpha cmax : ℚ) :
    update_ilc_curve db sig baseline_by_bin existing_curve ystart tstart alpha cmax
      = smooth_curve ((specRecords db sig ystart tstart).foldl
          (specStep baseline_by_bin alpha cmax) (mkDict (fun i => dget existing_curve i))) := by
  simp only [update_ilc_curve, update_ilc_rows, specRecords]
  rw [ilc_fold_eq]

/-- Claim C2: for every learning mode and every input history and ILC curve
(including curves with arbitrarily large negative corrections), every value in
the output of `build_forecast` is a finite float that is `≥ 0.0`. -/
theorem C2_build_forecast_nonneg (df : List Row) (now : ℤ) (horizon_hours : ℕ)
    (ilc_curve : Signal → Dct) (learning_mode : String) (s : Signal) (values : List V)
    (hmem : (s, values) ∈ (build_forecast df now horizon_hours ilc_curve learning_mode).2)
    (v : V) (hv : v ∈ values) : ∃ q : ℚ, v = some q ∧ 0 ≤ q := by
  simp only [build_forecast] at hmem
  obtain ⟨s2, hs2, heq⟩ := List.mem_map.mp hmem
  rw [Prod.mk.injEq] at heq
  obtain ⟨rfl, hval⟩ := heq
  by_cases h1 : learning_mode = "weekday_profile"
  · rw [if_pos h1] at hval
    rw [← hval] at hv
    obtain ⟨t, ht, rfl⟩ := List.mem_map.mp hv
    exact pymax_zero_nonneg _
  · rw [if_neg h1] at hval
    by_cases h2 : learning_mode = "off"
    · rw [if_pos h2] at hval
      rw [← hval] at hv
      obtain ⟨t, ht, rfl⟩ := List.mem_map.mp hv
      exact pymax_zero_nonneg _
    · rw [if_neg h2] at hval
      rw [← hval] at hv
      obtain ⟨t, ht, rfl⟩ := List.mem_map.mp hv
      exact pymax_zero_nonneg _

/-- Witness for C2 at a concrete input: the empty history, `horizon_hours = 1`,
mode `"off"`; the forecast value for `total_w` at the first timestamp is `0.0`
and nonnegative. -/
theorem C2_witness : ∃ q : ℚ, (some 0 : V) = some q ∧ 0 ≤ q := by
  have hsm : dget (smooth_baseline (mkDict (fun _ => (some 0 : V)))) 1 = some 0 := by
    rw [dget_smooth_formula _ 1 (by omega) (by omega),
        padded_of_in _ (1 - 1) ⟨by omega, by omega⟩,
        padded_of_in _ 1 ⟨by omega, by omega⟩,
        padded_of_in _ (1 + 1) ⟨by omega, by omega⟩,
        dget_mkDict _ (1 - 1) (by omega) (by omega),
        dget_mkDict _ 1 (by omega) (by omega),
        dget_mkDict _ (1 + 1) (by omega) (by omega)]
    show some ((0 + 0 + 0) / 3) = some 0
    exact congrArg some (by norm_num)
  refine C2_build_forecast_nonneg [] 0 1 (fun _ => []) "off" Signal.total_w _
    (List.mem_map.mpr ⟨Signal.total_w, by decide, rfl⟩) (some 0) ?_
  simp only [if_neg (show ¬ (("off" : String) = "weekday_profile") by decide),
             if_pos (show ("off" : String) = "off" from rfl)]
  refine List.mem_map.mpr ⟨15, List.mem_map.mpr ⟨0, by decide, by decide⟩, ?_⟩
  show pymax (some 0)
      (dget (smooth_baseline (compute_baseline [] Signal.total_w 14)) (bin_index 15)) = some 0
  have hcb : compute_baseline [] Signal.total_w 14 = mkDict (fun _ => some 0) := rfl
  rw [hcb, (by decide : bin_index 15 = (1 : ℤ)), hsm]
  decide

/-- Claim C4 (counterexample): calling `update_ilc_curve` with `alpha = 0` does
NOT return a curve equal to the existing curve: the unconditional final
smoothing pass changes it (for the constant-3 curve, slot 0 becomes 2). -/
theorem C4_counterexample_smoothing_changes_curve :
    (update_ilc_curve [] Signal.total_w (mkDict (fun _ => some 0)) (mkDict (fun _ => some 3))
      0 1440 0 4000 = mkDict (fun _ => some 3)) ↔ False := by
  refine iff_false_intro ?_
  intro h
  have h2 := congrArg (fun d => dget d 0) h
  simp only at h2
  have h3 : dget (update_ilc_curve [] Signal.total_w (mkDict (fun _ => some 0))
      (mkDict (fun _ => some 3)) 0 1440 0 4000) 0 = some 2 :=
    congrArg some (by norm_num : ((0 + 3 + 3) / 3 : ℚ) = 2)
  have h4 : dget (mkDict (fun _ => (some 3 : V))) 0 = some 3 := rfl
  rw [h3, h4] at h2
  exact absurd (Option.some.inj h2) (by norm_num)

/-- Claim C4 (amended): with `alpha = 0` the per-slot exponential update leaves
every slot of the curve unchanged (provided the existing entries are finite and
already within `[-cmax, cmax]` and the baseline entries are finite), so
`update_ilc_curve` returns exactly the smoothing of the (0-defaulted) existing
curve — not the existing curve itself, because the final smoothing pass still
runs unconditionally. -/
theorem C4_alpha_zero_returns_smoothed (db : List Row) (sig : Signal)
    (baseline_by_bin existing_curve : Dct) (ystart tstart : ℤ) (cmax : ℚ)
    (hc : 0 ≤ cmax) (hbase : finiteD baseline_by_bin)
    (hex : boundedD existing_curve cmax) :
    update_ilc_curve db sig baseline_by_bin existing_curve ystart tstart 0 cmax
      = smooth_curve (mkDict (fun i => dget existing_curve i)) := by
  simp only [update_ilc_curve, update_ilc_rows]
  rw [fold_alpha_zero hc hbase _
    (boundedD_mkDict _ (fun j => dget_of_boundedD cmax hc existing_curve hex j))]

/-- Witness for the amended C4 at a concrete input. -/
theorem C4_witness :
    (0 : ℚ) ≤ 4000
    ∧ update_ilc_curve [] Signal.total_w (mkDict (fun _ => some 0)) (mkDict (fun _ => some 3))
        0 1440 0 4000
      = smooth_curve (mkDict (fun i => dget (mkDict (fun _ => some 3)) i)) :=
  ⟨by norm_num,
   C4_alpha_zero_returns_smoothed [] Signal.total_w (mkDict (fun _ => some 0))
     (mkDict (fun _ => some 3)) 0 1440 4000 (by norm_num) (by decide) (by decide)⟩

/-- Claim C5: the smoothing filter computes
`output[i] = (input[i-1] + input[i] + input[i+1]) / 3` over the 96 slots with
`input[-1]` and `input[96]` treated as 0 (zero padding, not a circular wrap);
consequently smoothing an all-constant input `v` yields `v` at every interior
slot `1..94` and `2v/3` at slots 0 and 95. -/
theorem C5_smoothing_zero_padded :
    (∀ (d : Dct) (i : ℤ), 0 ≤ i → i < 96 →
        dget (smooth_baseline d) i
          = Vdiv3 (Vadd (Vadd (padded d (i - 1)) (padded d i)) (padded d (i + 1))))
    ∧ (∀ (v : ℚ) (i : ℤ), 1 ≤ i → i ≤ 94 →
        dget (smooth_baseline (mkDict (fun _ => some v))) i = some v)
    ∧ (∀ v : ℚ, dget (smooth_baseline (mkDict (fun _ => some v))) 0 = some (2 * v / 3))
    ∧ (∀ v : ℚ, dget (smooth_baseline (mkDict (fun _ => some v))) 95 = some (2 * v / 3)) := by
  have hformula : ∀ (d : Dct) (i : ℤ), 0 ≤ i → i < 96 →
      dget (smooth_baseline d) i
        = Vdiv3 (Vadd (Vadd (padded d (i - 1)) (padded d i)) (padded d (i + 1))) := by
    intro d i h0 h96
    unfold smooth_baseline
    rw [dget_mkDict _ i h0 h96]
  have hpad_in : ∀ (v : ℚ) (k : ℤ), 0 ≤ k → k < 96 →
      padded (mkDict (fun _ => some v)) k = some v := by
    intro v k hk0 hk96
    unfold padded
    rw [if_pos ⟨hk0, hk96⟩, dget_mkDict _ k hk0 hk96]
  have hpad_out : ∀ (v : ℚ) (k : ℤ), ¬ (0 ≤ k ∧ k < 96) →
      padded (mkDict (fun _ => some v)) k = some 0 := by
    intro v k hk
    unfold padded
    rw [if_neg hk]
  refine ⟨hformula, ?_, ?_, ?_⟩
  · intro v i h1 h94
    rw [hformula _ i (by omega) (by omega)]
    rw [hpad_in v (i - 1) (by omega) (by omega), hpad_in v i (by omega) (by omega),
        hpad_in v (i + 1) (by omega) (by omega)]
    show some ((v + v + v) / 3) = some v
    congr 1
    ring
  · intro v
    rw [hformula _ 0 (by omega) (by omega)]
    rw [hpad_out v (0 - 1) (by omega), hpad_in v 0 (by omega) (by omega),
        hpad_in v (0 + 1) (by omega) (by omega)]
    show some ((0 + v + v) / 3) = some (2 * v / 3)
    congr 1
    ring
  · intro v
    rw [hformula _ 95 (by omega) (by omega)]
    rw [hpad_in v (95 - 1) (by omega) (by omega), hpad_in v 95 (by omega) (by omega),
        hpad_out v (95 + 1) (by omega)]
    show some ((v + v + 0) / 3) = some (2 * v / 3)
    congr 1
    ring

/-- Witness for C5 at a concrete input (constant curve of value 3). -/
theorem C5_witness :
    dget (smooth_baseline (mkDict (fun _ => some 3))) 2 = some 3
    ∧ dget (smooth_baseline (mkDict (fun _ => some 3))) 0 = some (2 * 3 / 3) :=
  ⟨C5_smoothing_zero_padded.2.1 3 2 (by norm_num) (by norm_num),
   C5_smoothing_zero_padded.2.2.1 3⟩

/-- Claim C3 (counterexample): with an empty yesterday window but a record for
today already binned, the cycle is NOT skipped: the marker is set to today and
every persisted curve is re-smoothed (slot 0 of the constant-3 curve becomes 2),
even though `[yesterday_start, today_start)` is empty. -/
theorem C3_counterexample_runs_on_empty_yesterday :
    ((fetch_binned_between [Row.mk (5 * 1440) (fun _ => some 100)]
        ((5 - 1) * 1440) (5 * 1440)).isEmpty = true)
    ∧ ((maybe_update_ilc (SysState.mk [Row.mk (5 * 1440) (fun _ => some 100)]
          (fun _ => mkDict (fun _ => some 3)) none) 5).last_ilc_update = some 5
        ∧ (SysState.mk [Row.mk (5 * 1440) (fun _ => some 100)]
            (fun _ => mkDict (fun _ => some 3)) none).last_ilc_update = none)
    ∧ (dget ((maybe_update_ilc (SysState.mk [Row.mk (5 * 1440) (fun _ => some 100)]
          (fun _ => mkDict (fun _ => some 3)) none) 5).curves Signal.total_w) 0 = some 2
        ∧ dget ((SysState.mk [Row.mk (5 * 1440) (fun _ => some 100)]
            (fun _ => mkDict (fun _ => some 3)) none).curves Signal.total_w) 0 = some 3) := by
  refine ⟨rfl, ⟨rfl, rfl⟩, ⟨?_, rfl⟩⟩
  exact congrArg some (by norm_num : ((0 + 3 + 3) / 3 : ℚ) = 2)

/-- Claim C3 (amended): the daily cycle leaves the whole state unchanged when
the fetched history from yesterday 00:00 onward — which includes today's
records — is empty; an empty yesterday window alone does not suffice. -/
theorem C3_skip_only_when_no_rows_since_yesterday (st : SysState) (today : ℤ)
    (h : (fetch_binned_since st.binned ((today - 1) * 1440)).isEmpty = true) :
    maybe_update_ilc st today = st := by
  unfold maybe_update_ilc
  by_cases hg : should_update_ilc st.last_ilc_update today = true
  · rw [if_pos hg]
    simp [h]
  · rw [if_neg hg]

/-- Witness for the amended C3 at a concrete input. -/
theorem C3_witness :
    (fetch_binned_since ([] : List Row) ((3 - 1) * 1440)).isEmpty = true
    ∧ maybe_update_ilc (SysState.mk [] (fun _ => []) none) 3
        = SysState.mk [] (fun _ => []) none :=
  ⟨rfl, C3_skip_only_when_no_rows_since_yesterday (SysState.mk [] (fun _ => []) none) 3 rfl⟩

/-- Claim C6 (counterexample): one `update_ilc_curve` call starting from the
all-zero curve, with a baseline holding NaN at slot 0 (as `compute_baseline`
produces when a slot's records all carry absent values), puts NaN into the
returned curve: the entry at slot 0 is NaN, which does not lie in
`[-cmax, cmax]`. -/
theorem C6_counterexample_nan_escapes_clamp :
    dget (update_ilc_curve [Row.mk 10 (fun _ => some 100)] Signal.total_w
        (mkDict (fun i => if i = 0 then none else some 0)) (mkDict (fun _ => some 0))
        0 1440 (1 / 5) 4000) 0 = none
    ∧ ¬ boundedD (update_ilc_curve [Row.mk 10 (fun _ => some 100)] Signal.total_w
        (mkDict (fun i => if i = 0 then none else some 0)) (mkDict (fun _ => some 0))
        0 1440 (1 / 5) 4000) 4000 := by
  have h0 : dget (update_ilc_curve [Row.mk 10 (fun _ => some 100)] Signal.total_w
      (mkDict (fun i => if i = 0 then none else some 0)) (mkDict (fun _ => some 0))
      0 1440 (1 / 5) 4000) 0 = none := rfl
  refine ⟨h0, fun hB => ?_⟩
  have hb := dget_of_boundedD 4000 (by norm_num) _ hB 0
  rw [h0] at hb
  exact hb

/-- Claim C6 (amended): starting from the all-zero curve, for any finite
sequence of `update_ilc_curve` calls with any histories, NaN-free baselines and
any alpha, and any clamp `0 ≤ cmax`, every entry of every resulting curve is a
finite value in `[-cmax, cmax]`, including after the final smoothing step of
each call. -/
theorem C6_clamp_bound_sequence (cmax : ℚ) (calls : List IlcCall)
    (hc : 0 ≤ cmax) (hbase : ∀ cl ∈ calls, finiteD cl.baseline) :
    boundedD (applyCalls cmax (mkDict (fun _ => some 0)) calls) cmax := by
  have h0 : boundedD (mkDict (fun _ => some 0)) cmax :=
    boundedD_mkDict _ (fun j => ⟨by linarith, hc⟩)
  unfold applyCalls
  suffices haux : ∀ (cs : List IlcCall) (start : Dct), boundedD start cmax →
      (∀ cl ∈ cs, finiteD cl.baseline) →
      boundedD (cs.foldl (fun curve cl =>
        update_ilc_curve cl.db cl.sig cl.baseline curve cl.ystart cl.tstart cl.alpha cmax)
        start) cmax by
    exact haux calls _ h0 hbase
  intro cs
  induction cs with
  | nil => intro start hs _; exact hs
  | cons cl rest ih =>
      intro start hs hb
      rw [List.foldl_cons]
      exact ih _ (boundedD_update_ilc_curve hc (hb cl (List.mem_cons_self cl rest)) hs)
        (fun x hx => hb x (List.mem_cons_of_mem cl hx))

/-- Witness for the amended C6: one call with a finite baseline keeps the curve
within `[-4000, 4000]`. -/
theorem C6_witness :
    (0 : ℚ) ≤ 4000
    ∧ boundedD (applyCalls 4000 (mkDict (fun _ => some 0))
        [IlcCall.mk [Row.mk 10 (fun _ => some 100)] Signal.total_w
          (mkDict (fun _ => some 0)) 0 1440 (1 / 5)]) 4000 :=
  ⟨by norm_num,
   C6_clamp_bound_sequence 4000
     [IlcCall.mk [Row.mk 10 (fun _ => some 100)] Signal.total_w
       (mkDict (fun _ => some 0)) 0 1440 (1 / 5)]
     (by norm_num) (by decide)⟩

/-- Claim C7: `build_forecast` returns exactly `horizon_hours * 4` timestamps,
consecutive timestamps exactly 15 minutes apart (hence strictly increasing),
starting exactly 15 minutes after the latest timestamp present in the history
(or 15 minutes after the current instant when the history is empty); `maxTs` is
indeed the largest timestamp of the history and is attained by one of its rows. -/
theorem C7_forecast_length_spacing_start (df : List Row) (now : ℤ) (horizon_hours : ℕ)
    (ilc_curve : Signal → Dct) (learning_mode : String) :
    (build_forecast df now horizon_hours ilc_curve learning_mode).1.length = horizon_hours * 4
    ∧ (∀ i : ℕ, i < horizon_hours * 4 →
        (build_forecast df now horizon_hours ilc_curve learning_mode).1.getD i 0
          = (if df.isEmpty then now else maxTs df) + 15 + 15 * (i : ℤ))
    ∧ (∀ i : ℕ, i + 1 < horizon_hours * 4 →
        (build_forecast df now horizon_hours ilc_curve learning_mode).1.getD (i + 1) 0
          = (build_forecast df now horizon_hours ilc_curve learning_mode).1.getD i 0 + 15)
    ∧ (∀ r ∈ df, r.ts ≤ maxTs df)
    ∧ (df ≠ [] → ∃ r ∈ df, maxTs df = r.ts) := by
  have hT : (build_forecast df now horizon_hours ilc_curve learning_mode).1
      = (List.range (horizon_hours * 4)).map
          (fun i : ℕ => ((if df.isEmpty then now else maxTs df) + 15) + 15 * (i : ℤ)) := rfl
  refine ⟨?_, ?_, ?_, le_maxTs df, maxTs_mem df⟩
  · rw [hT, List.length_map, List.length_range]
  · intro i hi
    rw [hT, getD_range_map, if_pos hi]
  · intro i hi
    rw [hT, getD_range_map, getD_range_map, if_pos hi,
        if_pos (show i < horizon_hours * 4 by omega)]
    push_cast
    ring

/-- Witness for C7 at a concrete input (one-row history, 48-hour horizon). -/
theorem C7_witness :
    (build_forecast [Row.mk 100 (fun _ => some 1)] 0 48 (fun _ => []) "off").1.length = 48 * 4
    ∧ (build_forecast [Row.mk 100 (fun _ => some 1)] 0 48 (fun _ => []) "off").1.getD (0 + 1) 0
        = (build_forecast [Row.mk 100 (fun _ => some 1)] 0 48 (fun _ => []) "off").1.getD 0 0
            + 15 :=
  ⟨(C7_forecast_length_spacing_start [Row.mk 100 (fun _ => some 1)] 0 48 (fun _ => []) "off").1,
   (C7_forecast_length_spacing_start [Row.mk 100 (fun _ => some 1)] 0 48
     (fun _ => []) "off").2.2.1 0 (by norm_num)⟩

/-- Claim C8: with `learning_mode = "weekday_profile"`, the output of
`build_forecast` is completely unaffected by the ILC curve argument: two runs
with the same history and horizon but different curves are identical. -/
theorem C8_weekday_profile_curve_independent (df : List Row) (now : ℤ) (horizon_hours : ℕ)
    (c1 c2 : Signal → Dct) :
    build_forecast df now horizon_hours c1 "weekday_profile"
      = build_forecast df now horizon_hours c2 "weekday_profile" := rfl

/-- Claim C9 (counterexample): a history whose only record carries an absent
value for the signal makes `compute_baseline` return NaN — not a finite float —
at that record's slot (pandas' mean of an all-NaN group). -/
theorem C9_counterexample_all_absent_slot_nan :
    dget (compute_baseline [Row.mk 0 (fun _ => none)] Signal.total_w 14) 0 = none := rfl

/-- Claim C9 (amended): `compute_baseline` always returns exactly the 96 keys
`0..95`; an empty history yields all zeros, and a slot with NO records after
window filtering yields `0.0` rather than an absent entry.  (A slot whose
records all carry absent values, however, yields NaN — see the counterexample.) -/
theorem C9_baseline_totality (df : List Row) (sig : Signal) (days : ℕ) :
    ((compute_baseline df sig days).map Prod.fst
        = (List.range 96).map (fun j : ℕ => (j : ℤ)))
    ∧ (df = [] → ∀ i : ℤ, 0 ≤ i → i < 96 → dget (compute_baseline df sig days) i = some 0)
    ∧ (∀ i : ℤ, 0 ≤ i → i < 96 →
        ((windowFiltered df days).filter (fun r => bin_index r.ts = i)).isEmpty = true →
        dget (compute_baseline df sig days) i = some 0) := by
  refine ⟨?_, ?_, ?_⟩
  · unfold compute_baseline
    by_cases hdf : df.isEmpty = true
    · rw [if_pos hdf]
      exact keys_mkDict _
    · rw [if_neg hdf]
      exact keys_mkDict _
  · intro hdf i h0 h96
    subst hdf
    unfold compute_baseline
    rw [if_pos (show ([] : List Row).isEmpty = true from rfl)]
    exact dget_mkDict _ i h0 h96
  · intro i h0 h96 hgrp
    unfold compute_baseline
    by_cases hdf : df.isEmpty = true
    · rw [if_pos hdf, dget_mkDict _ i h0 h96]
    · rw [if_neg hdf, dget_mkDict _ i h0 h96]
      show slotMean (windowFiltered df days) sig i = some 0
      unfold slotMean
      simp [hgrp]

/-- Witness for the amended C9 on the empty history. -/
theorem C9_witness : dget (compute_baseline [] Signal.total_w 14) 5 = some 0 :=
  (C9_baseline_totality [] Signal.total_w 14).2.1 rfl 5 (by norm_num) (by norm_num)

theorem length_branch (c1 c2 : Prop) [Decidable c1] [Decidable c2] (l : List ℤ)
    (f1 f2 f3 : ℤ → V) :
    (if c1 then l.map f1 else if c2 then l.map f2 else l.map f3).length = l.length := by
  by_cases h1 : c1
  · rw [if_pos h1, List.length_map]
  · rw [if_neg h1]
    by_cases h2 : c2
    · rw [if_pos h2, List.length_map]
    · rw [if_neg h2, List.length_map]

/-- Claim C10: for every history, `build_forecast` unconditionally produces
forecasts for exactly the five signals `total_w, l1_w, l2_w, l3_w, inverter_w`
(the inverter signal included), in that order, each as a list whose length
equals the number of output timestamps, regardless of which signals carry data. -/
theorem C10_forecast_signals_shape (df : List Row) (now : ℤ) (horizon_hours : ℕ)
    (ilc_curve : Signal → Dct) (learning_mode : String) :
    ((build_forecast df now horizon_hours ilc_curve learning_mode).2.map Prod.fst
        = signalsList)
    ∧ ∀ p ∈ (build_forecast df now horizon_hours ilc_curve learning_mode).2,
        p.2.length = (build_forecast df now horizon_hours ilc_curve learning_mode).1.length := by
  constructor
  · rfl
  · intro p hp
    obtain ⟨s, hs, rfl⟩ := List.mem_map.mp hp
    exact length_branch _ _ _ _ _ _

/-- Witness for C10 at a concrete input: the first output entry. -/
theorem C10_witness :
    ((build_forecast [] 0 1 (fun _ => []) "off").2.map Prod.fst = signalsList)
    ∧ ((build_forecast [] 0 1 (fun _ => []) "off").2.getD 0 (Signal.total_w, [])).2.length
        = (build_forecast [] 0 1 (fun _ => []) "off").1.length :=
  ⟨(C10_forecast_signals_shape [] 0 1 (fun _ => []) "off").1,
   (C10_forecast_signals_shape [] 0 1 (fun _ => []) "off").2
     ((build_forecast [] 0 1 (fun _ => []) "off").2.getD 0 (Signal.total_w, []))
     (List.mem_cons_self _ _)⟩
